import Mathlib

/-!
Verification of the audio chunking and transcript reassembly pipeline.

The development shallowly embeds the pipeline's core functions:
`splitAudioFile` (chunk partitioner), `audioBufferToBlob` (WAV container
encoder, two source copies), `mergeTranscriptions` (ordered reassembly),
the transcription route's error mapping, and the page's orchestration
loop (`handleFileChange` / `updateFileStatus` / `handleTranscribe`).
Numbers that are JavaScript floats in the source are modelled as exact
rationals; machine integer writes carry explicit `% 2 ^ w` reductions.
-/

namespace F9

/-! ### Chunk partitioner (`splitAudioFile`, `src/utils/audioUtils.ts`)

A produced chunk records its time range, its ordinal, and the sample
range `[startSample, endSample)` copied out of the decoded buffer
(the samples are what the chunk's blob contains). -/

structure Chunk where
  startTime : ℚ
  endTime : ℚ
  index : ℕ
  startSample : ℤ
  endSample : ℤ
  deriving DecidableEq, Repr

/-- Loop body of `splitAudioFile`: walk `currentTime` from 0 to
`totalDurationMs` in steps of `chunkDurationMs`; each step floors the
time boundaries into sample indices.  The `while` loop of the source is
embedded with explicit fuel; `splitAudioFile` supplies provably
sufficient fuel. -/
def splitLoop (chunkDurationMs totalDurationMs sampleRate : ℚ) :
    ℕ → ℚ → ℕ → List Chunk
  | 0, _, _ => []
  | fuel + 1, currentTime, chunkIndex =>
    if currentTime < totalDurationMs then
      { startTime := currentTime
        endTime := min (currentTime + chunkDurationMs) totalDurationMs
        index := chunkIndex
        startSample := ⌊currentTime / 1000 * sampleRate⌋
        endSample := ⌊min (currentTime + chunkDurationMs) totalDurationMs / 1000 * sampleRate⌋ } ::
        splitLoop chunkDurationMs totalDurationMs sampleRate fuel
          (min (currentTime + chunkDurationMs) totalDurationMs) (chunkIndex + 1)
    else []

/-- Total duration in ms computed by `splitAudioFile`:
`(totalSamples / sampleRate) * 1000`. -/
def totalDuration (totalSamples sampleRate : ℕ) : ℚ :=
  ((totalSamples : ℚ) / (sampleRate : ℚ)) * 1000

/-- The decoded-buffer part of `splitAudioFile`: produce the chunk list
for a buffer of `totalSamples` samples at rate `sampleRate`, with chunk
duration `chunkDurationMs`. -/
def splitAudioFile (totalSamples sampleRate : ℕ) (chunkDurationMs : ℚ) : List Chunk :=
  splitLoop chunkDurationMs (totalDuration totalSamples sampleRate) (sampleRate : ℚ)
    (⌈totalDuration totalSamples sampleRate / chunkDurationMs⌉.toNat) 0 0

/-- Closed form of the loop's `j`-th chunk when started at time `t0`
with first index `idx0`. -/
def chunkClosed (d T sr t0 : ℚ) (idx0 j : ℕ) : Chunk :=
  { startTime := t0 + j * d
    endTime := min (t0 + (j + 1) * d) T
    index := idx0 + j
    startSample := ⌊(t0 + j * d) / 1000 * sr⌋
    endSample := ⌊min (t0 + (j + 1) * d) T / 1000 * sr⌋ }

lemma ceil_div_toNat_eq_zero {T t d : ℚ} (hd : 0 < d) (h : ¬t < T) :
    (⌈(T - t) / d⌉).toNat = 0 := by
  have h1 : (T - t) / d ≤ 0 :=
    div_nonpos_iff.mpr (Or.inr ⟨by linarith, hd.le⟩)
  have h2 : ⌈(T - t) / d⌉ ≤ 0 := Int.ceil_le.mpr (by exact_mod_cast h1)
  omega

lemma ceil_div_toNat_pos {T t d : ℚ} (hd : 0 < d) (h : t < T) :
    0 < (⌈(T - t) / d⌉).toNat := by
  have h1 : 0 < (T - t) / d := div_pos (by linarith) hd
  have h2 : 0 < ⌈(T - t) / d⌉ := Int.ceil_pos.mpr h1
  omega

lemma splitLoop_closed (d T sr : ℚ) (hd : 0 < d) :
    ∀ (fuel : ℕ) (t : ℚ) (idx : ℕ), (⌈(T - t) / d⌉).toNat ≤ fuel →
      splitLoop d T sr fuel t idx =
        (List.range (⌈(T - t) / d⌉).toNat).map (chunkClosed d T sr t idx) := by
  intro fuel
  induction fuel with
  | zero =>
    intro t idx hfuel
    have : (⌈(T - t) / d⌉).toNat = 0 := Nat.le_zero.mp hfuel
    simp [splitLoop, this]
  | succ fuel ih =>
    intro t idx hfuel
    by_cases ht : t < T
    · have hK : 0 < (⌈(T - t) / d⌉).toNat := ceil_div_toNat_pos hd ht
      rw [splitLoop, if_pos ht]
      by_cases hTd : t + d < T
      · -- the step does not reach the end: the next start is `t + d`
        have hmin : min (t + d) T = t + d := min_eq_left hTd.le
        have hsub : (T - (t + d)) / d = (T - t) / d - 1 := by
          field_simp
          ring_nf
        have hceil : ⌈(T - (t + d)) / d⌉ = ⌈(T - t) / d⌉ - 1 := by
          rw [hsub, Int.ceil_sub_one]
        have hKpos : 0 < ⌈(T - t) / d⌉ := Int.ceil_pos.mpr (div_pos (by linarith) hd)
        have hK' : (⌈(T - (t + d)) / d⌉).toNat = (⌈(T - t) / d⌉).toNat - 1 := by
          omega
        rw [hmin]
        rw [ih (t + d) (idx + 1) (by omega)]
        have hrange : (⌈(T - t) / d⌉).toNat = ((⌈(T - t) / d⌉).toNat - 1) + 1 := by omega
        rw [hK', hrange, List.range_succ_eq_map, List.map_cons, List.map_map]
        congr 1
        · simp [chunkClosed, hmin]
        · simp only [Nat.add_sub_cancel]
          apply List.map_congr_left
          intro j _
          simp only [Function.comp_apply, chunkClosed, Chunk.mk.injEq]
          refine ⟨by push_cast; ring, by push_cast; ring_nf, by omega, ?_, ?_⟩
          · congr 1
            push_cast
            ring_nf
          · congr 2
            push_cast
            ring_nf
      · -- final step: clamp to `T`, and the recursion stops there
        have hmin : min (t + d) T = T := min_eq_right (by linarith)
        have hone : ⌈(T - t) / d⌉ = 1 := by
          have hle : (T - t) / d ≤ 1 := by
            rw [div_le_one hd]
            linarith
          have hpos : 0 < ⌈(T - t) / d⌉ := Int.ceil_pos.mpr (div_pos (by linarith) hd)
          have := Int.ceil_le.mpr (show (T - t) / d ≤ ((1 : ℤ) : ℚ) by push_cast; linarith)
          omega
        have hK0 : (⌈(T - T) / d⌉).toNat = 0 := ceil_div_toNat_eq_zero hd (lt_irrefl T)
        rw [hmin]
        rw [ih T (idx + 1) (by omega)]
        rw [hK0]
        have hKone : (⌈(T - t) / d⌉).toNat = 1 := by omega
        rw [hKone]
        have hr1 : List.range 1 = [0] := rfl
        rw [hr1, List.map_cons, List.map_nil, List.range_zero, List.map_nil]
        simp only [chunkClosed, Nat.cast_zero, zero_mul, add_zero, zero_add, one_mul]
        simp [hmin]
    · have hK : (⌈(T - t) / d⌉).toNat = 0 := ceil_div_toNat_eq_zero hd ht
      rw [splitLoop, if_neg ht, hK]
      simp

/-- Closed form of `splitAudioFile`. -/
lemma splitAudioFile_closed (N sr : ℕ) (d : ℚ) (hd : 0 < d) :
    splitAudioFile N sr d =
      (List.range (⌈totalDuration N sr / d⌉).toNat).map
        (chunkClosed d (totalDuration N sr) (sr : ℚ) 0 0) := by
  have h := splitLoop_closed d (totalDuration N sr) (sr : ℚ) hd
    (⌈totalDuration N sr / d⌉).toNat 0 0
  rw [splitAudioFile]
  simpa using h (by simp)

lemma totalDuration_nonneg (N sr : ℕ) : 0 ≤ totalDuration N sr := by
  unfold totalDuration
  positivity

lemma totalDuration_pos {N sr : ℕ} (hN : 0 < N) (hsr : 0 < sr) :
    0 < totalDuration N sr := by
  unfold totalDuration
  have h1 : (0 : ℚ) < (N : ℚ) := by exact_mod_cast hN
  have h2 : (0 : ℚ) < (sr : ℚ) := by exact_mod_cast hsr
  positivity

/-- Any index strictly below the chunk count keeps `j * d` strictly
below the total duration. -/
lemma mul_lt_of_lt_ceil (T d : ℚ) (j : ℕ) (hd : 0 < d)
    (hj : j < (⌈T / d⌉).toNat) : (j : ℚ) * d < T := by
  have hc : ((j : ℤ) : ℚ) < T / d := by
    have h1 : (j : ℤ) < ⌈T / d⌉ := by omega
    have h2 : ((j : ℤ) : ℚ) ≤ ⌈T / d⌉ - 1 := by exact_mod_cast Int.le_sub_one_of_lt h1
    have h3 : (⌈T / d⌉ : ℚ) - 1 < T / d := by
      have := Int.ceil_lt_add_one (T / d)
      push_cast at this ⊢
      linarith
    linarith
  have := (lt_div_iff₀ hd).mp (by exact_mod_cast hc)
  exact_mod_cast this

/-- The chunk count times the duration covers the total duration. -/
lemma ceil_mul_ge (T d : ℚ) (hd : 0 < d) :
    T ≤ ((⌈T / d⌉).toNat : ℚ) * d := by
  have h1 : T / d ≤ (⌈T / d⌉ : ℚ) := Int.le_ceil _
  have h2 : (⌈T / d⌉ : ℚ) ≤ ((⌈T / d⌉).toNat : ℚ) := by
    have : ⌈T / d⌉ ≤ ((⌈T / d⌉).toNat : ℤ) := Int.self_le_toNat _
    exact_mod_cast this
  have := (div_le_iff₀ hd).mp h1
  nlinarith

/-- Dummy chunk used as the `getD` default in statements. -/
def dChunk : Chunk := ⟨0, 0, 0, 0, 0⟩

lemma getD_range_map {α : Type} (f : ℕ → α) (K i : ℕ) (x : α) (hi : i < K) :
    ((List.range K).map f).getD i x = f i := by
  rw [List.getD_eq_getElem?_getD, List.getElem?_map, List.getElem?_range hi]
  rfl

lemma splitAudioFile_length (N sr : ℕ) (d : ℚ) (hd : 0 < d) :
    (splitAudioFile N sr d).length = (⌈totalDuration N sr / d⌉).toNat := by
  rw [splitAudioFile_closed N sr d hd]
  simp

/-- Statement of the claimed time-partition property of `splitAudioFile`
for a buffer of `N` samples at rate `sr` and chunk duration `d`: the
chunk count is the ceiling of duration over chunk duration, consecutive
chunks are contiguous in time, the first chunk starts at 0, the last
ends exactly at the total duration, and chunk `i` carries index `i`. -/
def chunkTimesPartition (N sr : ℕ) (d : ℚ) : Prop :=
  ((splitAudioFile N sr d).length : ℤ) = ⌈totalDuration N sr / d⌉ ∧
  (∀ i, i + 1 < (splitAudioFile N sr d).length →
    ((splitAudioFile N sr d).getD i dChunk).endTime =
      ((splitAudioFile N sr d).getD (i + 1) dChunk).startTime) ∧
  ((splitAudioFile N sr d).getD 0 dChunk).startTime = 0 ∧
  ((splitAudioFile N sr d).getD ((splitAudioFile N sr d).length - 1) dChunk).endTime =
    totalDuration N sr ∧
  (∀ i, i < (splitAudioFile N sr d).length →
    ((splitAudioFile N sr d).getD i dChunk).index = i)

/-- C1: For every chunk duration `d > 0` and every decoded buffer with
`N > 0` samples at sample rate `sr > 0` (total duration
`T = (N / sr) * 1000` ms), `splitAudioFile` produces exactly `⌈T / d⌉`
chunks whose startTime/endTime values are contiguous, with the first
chunk starting at 0, the last chunk ending at exactly `T`, and index
values `0, 1, 2, ...` in chronological order; when `N = 0` it produces
the empty chunk list. -/
theorem splitAudioFile_partition_spec (N sr : ℕ) (d : ℚ) (hd : 0 < d) (hsr : 0 < sr) :
    (0 < N → chunkTimesPartition N sr d) ∧ (N = 0 → splitAudioFile N sr d = []) := by
  have hclosed := splitAudioFile_closed N sr d hd
  have hlen := splitAudioFile_length N sr d hd
  constructor
  · intro hN
    have hTpos : 0 < totalDuration N sr := totalDuration_pos hN hsr
    have hKpos : 0 < (⌈totalDuration N sr / d⌉).toNat := by
      have : 0 < ⌈totalDuration N sr / d⌉ := Int.ceil_pos.mpr (div_pos hTpos hd)
      omega
    refine ⟨?_, ?_, ?_, ?_, ?_⟩
    · rw [hlen]
      omega
    · intro i hi
      rw [hlen] at hi
      rw [hclosed, getD_range_map _ _ _ _ (by omega), getD_range_map _ _ _ _ hi]
      have hlt := mul_lt_of_lt_ceil (totalDuration N sr) d (i + 1) hd hi
      simp only [chunkClosed, zero_add]
      rw [min_eq_left (by push_cast at hlt ⊢; linarith)]
      push_cast
      ring
    · rw [hclosed, getD_range_map _ _ _ _ hKpos]
      simp [chunkClosed]
    · rw [hlen, hclosed, getD_range_map _ _ _ _ (by omega)]
      have hcast : ((((⌈totalDuration N sr / d⌉).toNat - 1 : ℕ) : ℚ) + 1) =
          (((⌈totalDuration N sr / d⌉).toNat : ℕ) : ℚ) := by
        have h1 : 1 ≤ (⌈totalDuration N sr / d⌉).toNat := hKpos
        push_cast [Nat.cast_sub h1]
        ring
      simp only [chunkClosed, zero_add]
      rw [hcast, min_eq_right (ceil_mul_ge (totalDuration N sr) d hd)]
    · intro i hi
      rw [hlen] at hi
      rw [hclosed, getD_range_map _ _ _ _ hi]
      simp [chunkClosed]
  · intro hN
    subst hN
    have hT : totalDuration 0 sr = 0 := by simp [totalDuration]
    rw [hclosed, hT]
    simp

/-- C1 witness at a concrete input: 3 samples at 1000 Hz (3 ms) with
1 ms chunks. -/
theorem splitAudioFile_partition_spec_witness :
    (0 : ℚ) < 1 ∧ (0 < 1000) ∧
      ((0 < 3 → chunkTimesPartition 3 1000 1) ∧ (3 = 0 → splitAudioFile 3 1000 1 = [])) :=
  ⟨by norm_num, by norm_num, splitAudioFile_partition_spec 3 1000 1 (by norm_num) (by norm_num)⟩

/-- Statement of the claimed sample-range partition property of
`splitAudioFile`: consecutive chunks' `[startSample, endSample)` ranges
are adjacent (no overlapping sample, no skipped sample), each range is
well formed, the first range starts at sample 0 and the last ends at
sample `N`. -/
def chunkSamplesPartition (N sr : ℕ) (d : ℚ) : Prop :=
  (∀ i, i + 1 < (splitAudioFile N sr d).length →
    ((splitAudioFile N sr d).getD i dChunk).endSample =
      ((splitAudioFile N sr d).getD (i + 1) dChunk).startSample) ∧
  (∀ i, i < (splitAudioFile N sr d).length →
    ((splitAudioFile N sr d).getD i dChunk).startSample ≤
      ((splitAudioFile N sr d).getD i dChunk).endSample) ∧
  (0 < (splitAudioFile N sr d).length →
    ((splitAudioFile N sr d).getD 0 dChunk).startSample = 0 ∧
    ((splitAudioFile N sr d).getD ((splitAudioFile N sr d).length - 1) dChunk).endSample =
      (N : ℤ))

/-- C3: For every chunk duration `d > 0` and decoded buffer of `N`
samples at rate `sr > 0`, the per-chunk sample ranges
`[startSample, endSample)` computed by `splitAudioFile` (floors of the
time boundaries scaled by the sample rate) exactly partition `[0, N)`:
consecutive ranges are adjacent with no overlap and no gap, the first
range starts at sample 0, and the last range ends at sample `N`. -/
theorem splitAudioFile_sample_ranges_partition (N sr : ℕ) (d : ℚ)
    (hd : 0 < d) (hsr : 0 < sr) : chunkSamplesPartition N sr d := by
  have hclosed := splitAudioFile_closed N sr d hd
  have hlen := splitAudioFile_length N sr d hd
  have hsrQ : ((sr : ℚ)) ≠ 0 := by
    have : (0 : ℚ) < (sr : ℚ) := by exact_mod_cast hsr
    linarith
  refine ⟨?_, ?_, ?_⟩
  · intro i hi
    rw [hlen] at hi
    rw [hclosed, getD_range_map _ _ _ _ (by omega), getD_range_map _ _ _ _ hi]
    have hlt := mul_lt_of_lt_ceil (totalDuration N sr) d (i + 1) hd hi
    simp only [chunkClosed, zero_add]
    rw [min_eq_left (by push_cast at hlt ⊢; linarith)]
    congr 2
    push_cast
    ring
  · intro i hi
    rw [hlen] at hi
    rw [hclosed, getD_range_map _ _ _ _ hi]
    have hlt := mul_lt_of_lt_ceil (totalDuration N sr) d i hd hi
    simp only [chunkClosed, zero_add]
    apply Int.floor_le_floor
    have hle : (i : ℚ) * d ≤ min (((i : ℚ) + 1) * d) (totalDuration N sr) := by
      apply le_min
      · nlinarith
      · linarith
    gcongr
  · intro hpos
    rw [hlen] at hpos
    constructor
    · rw [hclosed, getD_range_map _ _ _ _ hpos]
      simp [chunkClosed]
    · rw [hlen, hclosed, getD_range_map _ _ _ _ (by omega)]
      have hcast : ((((⌈totalDuration N sr / d⌉).toNat - 1 : ℕ) : ℚ) + 1) =
          (((⌈totalDuration N sr / d⌉).toNat : ℕ) : ℚ) := by
        push_cast [Nat.cast_sub hpos]
        ring
      simp only [chunkClosed, zero_add]
      rw [hcast, min_eq_right (ceil_mul_ge (totalDuration N sr) d hd)]
      have harg : totalDuration N sr / 1000 * (sr : ℚ) = (N : ℚ) := by
        unfold totalDuration
        field_simp
        ring
      rw [harg, Int.floor_natCast]

/-- C3 witness at a concrete input: 3 samples at 1000 Hz with 1 ms
chunks. -/
theorem splitAudioFile_sample_ranges_partition_witness :
    (0 : ℚ) < 1 ∧ (0 < 1000) ∧ chunkSamplesPartition 3 1000 1 :=
  ⟨by norm_num, by norm_num,
    splitAudioFile_sample_ranges_partition 3 1000 1 (by norm_num) (by norm_num)⟩

/-! ### Page orchestration (`src/app/page.tsx`)

`handleTranscribe` loops over the captured `files` array, skips entries
whose status is `completed`, posts the whole `File` object of every
other entry to `/api/transcribe`, and records the per-file outcome via
`updateFileStatus`.  A `FileModel` stands for the opaque browser `File`
value; its `durationMs`/`sizeBytes` attributes are never read by the
orchestrator.  The per-request outcome is an oracle
`result : ℕ → FileModel → Option String` giving the response to the
`i`-th iteration's request (`some` transcription on 2xx, `none` on
error). -/

inductive Status
  | pending
  | transcribing
  | completed
  | failed
  deriving DecidableEq, Repr

structure FileModel where
  fileId : ℕ
  durationMs : ℚ
  sizeBytes : ℕ
  deriving DecidableEq, Repr

structure FileStatus where
  file : FileModel
  status : Status
  transcription : Option String
  deriving DecidableEq, Repr

/-- Default record used with `List.getD` in statements. -/
def dFileStatus : FileStatus :=
  { file := { fileId := 0, durationMs := 0, sizeBytes := 0 }
    status := Status.pending
    transcription := none }

/-- Embedding of `handleFileChange`: append the selected files that
pass the 100 MB size filter as `pending` records with no
transcription. -/
def handleFileChange (prevFiles : List FileStatus) (selectedFiles : List FileModel) :
    List FileStatus :=
  prevFiles ++
    ((selectedFiles.filter (fun file => decide (file.sizeBytes ≤ 100 * 1024 * 1024))).map
      (fun file => { file := file, status := Status.pending, transcription := none }))

/-- Embedding of `updateFileStatus`: replace the record at `index`,
overriding both `status` and `transcription` (a call that omits the
transcription argument stores `undefined`, i.e. `none`). -/
def updateFileStatus (files : List FileStatus) (index : ℕ) (status : Status)
    (transcription : Option String) : List FileStatus :=
  match files[index]? with
  | some f => files.set index { f with status := status, transcription := transcription }
  | none => files

/-- State after a `handleTranscribe` run: the resulting file list and
the sequence of whole-file requests posted to `/api/transcribe`. -/
structure RunResult where
  files : List FileStatus
  submissions : List FileModel
  deriving DecidableEq, Repr

/-- One iteration of the `handleTranscribe` loop (the skip test reads
the captured `files0` array, matching the stale closure in the
source). -/
def transcribeStep (result : ℕ → FileModel → Option String) (files0 : List FileStatus)
    (acc : RunResult) (i : ℕ) : RunResult :=
  match files0[i]? with
  | none => acc
  | some fs =>
    if fs.status = Status.completed then acc
    else
      match result i fs.file with
      | some t =>
        { files := updateFileStatus
            (updateFileStatus acc.files i Status.transcribing none) i Status.completed (some t)
          submissions := acc.submissions ++ [fs.file] }
      | none =>
        { files := updateFileStatus
            (updateFileStatus acc.files i Status.transcribing none) i Status.failed none
          submissions := acc.submissions ++ [fs.file] }

/-- Embedding of `handleTranscribe`: guard on the api key and file
list, then run the loop over all indices. -/
def handleTranscribe (result : ℕ → FileModel → Option String) (apiKey : String)
    (files0 : List FileStatus) : RunResult :=
  if apiKey = "" ∨ files0.length = 0 then { files := files0, submissions := [] }
  else
    (List.range files0.length).foldl (transcribeStep result files0)
      { files := files0, submissions := [] }

/-- Final record of entry `i` after one run: completed entries are
untouched, every other entry is set from its fresh outcome. -/
def processedFile (result : ℕ → FileModel → Option String) (i : ℕ) (fs : FileStatus) :
    FileStatus :=
  if fs.status = Status.completed then fs
  else
    match result i fs.file with
    | some t => { fs with status := Status.completed, transcription := some t }
    | none => { fs with status := Status.failed, transcription := none }

/-- Predicate for the entries that a run actually submits. -/
def notCompleted (fs : FileStatus) : Bool := !(decide (fs.status = Status.completed))

lemma set_append_length {α : Type} (A : List α) (b v : α) (R : List α) :
    (A ++ b :: R).set A.length v = A ++ v :: R := by
  induction A with
  | nil => rfl
  | cons a A ih => simp [ih]

lemma updateFileStatus_append (A : List FileStatus) (b : FileStatus) (R : List FileStatus)
    (i : ℕ) (hA : A.length = i) (s : Status) (t : Option String) :
    updateFileStatus (A ++ b :: R) i s t =
      A ++ { b with status := s, transcription := t } :: R := by
  subst hA
  rw [updateFileStatus]
  have hget : (A ++ b :: R)[A.length]? = some b := by
    rw [List.getElem?_append_right le_rfl]
    simp
  rw [hget]
  exact set_append_length A b _ R

lemma handleTranscribe_go (result : ℕ → FileModel → Option String)
    (files0 : List FileStatus) :
    ∀ n, n ≤ files0.length →
      (List.range n).foldl (transcribeStep result files0)
          { files := files0, submissions := [] } =
        { files := (files0.take n).mapIdx (fun i fs => processedFile result i fs) ++
            files0.drop n
          submissions := ((files0.take n).filter notCompleted).map (fun fs => fs.file) } := by
  intro n
  induction n with
  | zero => simp
  | succ n ih =>
    intro hn
    have hn' : n < files0.length := by omega
    rw [List.range_succ, List.foldl_append]
    rw [ih (by omega)]
    have htake : files0.take (n + 1) = files0.take n ++ [files0[n]] := by
      rw [List.take_succ, List.getElem?_eq_getElem hn']
      rfl
    have hAlen : ((files0.take n).mapIdx (fun i fs => processedFile result i fs)).length = n := by
      simp [List.length_take]
      omega
    have hdrop : files0.drop n = files0[n] :: files0.drop (n + 1) :=
      List.drop_eq_getElem_cons hn'
    have htakelen : (files0.take n).length = n := by
      simp [List.length_take]
      omega
    simp only [List.foldl_cons, List.foldl_nil]
    rw [transcribeStep]
    rw [List.getElem?_eq_getElem hn']
    simp only []
    by_cases hc : files0[n].status = Status.completed
    · rw [if_pos hc]
      rw [htake, List.mapIdx_concat, htakelen]
      have hpf : processedFile result n files0[n] = files0[n] := by
        rw [processedFile, if_pos hc]
      rw [hpf]
      rw [List.filter_append]
      have hflt : [files0[n]].filter notCompleted = [] := by
        simp [notCompleted, hc]
      rw [hflt, List.append_nil]
      rw [hdrop]
      simp
    · rw [if_neg hc]
      rw [htake, List.mapIdx_concat, htakelen]
      rw [List.filter_append]
      have hflt : [files0[n]].filter notCompleted = [files0[n]] := by
        simp [notCompleted, hc]
      rw [hflt, List.map_append]
      have hpf : processedFile result n files0[n] =
          (match result n files0[n].file with
            | some t => { files0[n] with status := Status.completed, transcription := some t }
            | none => { files0[n] with status := Status.failed, transcription := none }) := by
        rw [processedFile, if_neg hc]
      cases hres : result n files0[n].file with
      | some t =>
        simp only [RunResult.mk.injEq]
        constructor
        · rw [hdrop]
          rw [updateFileStatus_append
            ((files0.take n).mapIdx (fun i fs => processedFile result i fs))
            files0[n] (files0.drop (n + 1)) n hAlen Status.transcribing none]
          rw [updateFileStatus_append
            ((files0.take n).mapIdx (fun i fs => processedFile result i fs))
            { files0[n] with status := Status.transcribing, transcription := none }
            (files0.drop (n + 1)) n hAlen Status.completed (some t)]
          rw [hpf, hres]
          simp
        · simp
      | none =>
        simp only [RunResult.mk.injEq]
        constructor
        · rw [hdrop]
          rw [updateFileStatus_append
            ((files0.take n).mapIdx (fun i fs => processedFile result i fs))
            files0[n] (files0.drop (n + 1)) n hAlen Status.transcribing none]
          rw [updateFileStatus_append
            ((files0.take n).mapIdx (fun i fs => processedFile result i fs))
            { files0[n] with status := Status.transcribing, transcription := none }
            (files0.drop (n + 1)) n hAlen Status.failed none]
          rw [hpf, hres]
          simp
        · simp

lemma handleTranscribe_files (result : ℕ → FileModel → Option String)
    (apiKey : String) (files0 : List FileStatus) (hkey : ¬ apiKey = "") :
    (handleTranscribe result apiKey files0).files =
      files0.mapIdx (fun i fs => processedFile result i fs) := by
  by_cases hlen : files0.length = 0
  · have h0 : files0 = [] := List.length_eq_zero.mp hlen
    subst h0
    simp [handleTranscribe]
  · rw [handleTranscribe, if_neg (by tauto)]
    rw [handleTranscribe_go result files0 files0.length le_rfl]
    simp

lemma handleTranscribe_subs (result : ℕ → FileModel → Option String)
    (apiKey : String) (files0 : List FileStatus) (hkey : ¬ apiKey = "") :
    (handleTranscribe result apiKey files0).submissions =
      (files0.filter notCompleted).map (fun fs => fs.file) := by
  by_cases hlen : files0.length = 0
  · have h0 : files0 = [] := List.length_eq_zero.mp hlen
    subst h0
    simp [handleTranscribe]
  · rw [handleTranscribe, if_neg (by tauto)]
    rw [handleTranscribe_go result files0 files0.length le_rfl]
    simp

lemma handleTranscribe_getD (result : ℕ → FileModel → Option String)
    (apiKey : String) (files0 : List FileStatus) (i : ℕ)
    (hkey : ¬ apiKey = "") (hi : i < files0.length) :
    (handleTranscribe result apiKey files0).files.getD i dFileStatus =
      processedFile result i (files0.getD i dFileStatus) := by
  rw [handleTranscribe_files result apiKey files0 hkey]
  rw [List.getD_eq_getElem?_getD, List.getElem?_mapIdx,
    List.getElem?_eq_getElem hi]
  rw [List.getD_eq_getElem?_getD, List.getElem?_eq_getElem hi]
  rfl

/-- Concrete long file: 10 minutes of audio (600000 ms), 30 MiB. -/
def longFile : FileModel := { fileId := 0, durationMs := 600000, sizeBytes := 31457280 }

/-- Pending entry for the long file. -/
def pendingLong : FileStatus :=
  { file := longFile, status := Status.pending, transcription := none }

/-- Concrete small file already transcribed in an earlier run. -/
def doneFile : FileModel := { fileId := 1, durationMs := 1000, sizeBytes := 5000 }

/-- Completed entry for the small file. -/
def completedRec : FileStatus :=
  { file := doneFile, status := Status.completed, transcription := some "done" }

/-- Second concrete pending file. -/
def smallFile : FileModel := { fileId := 2, durationMs := 1000, sizeBytes := 100 }

/-- Pending entry for the second file. -/
def pendingSmall : FileStatus :=
  { file := smallFile, status := Status.pending, transcription := none }

/-- Oracle in which every request succeeds. -/
def oracleOk : ℕ → FileModel → Option String := fun _ _ => some "text"

/-- C2 counterexample: `handleTranscribe` never probes duration and
never partitions.  The single uploaded file is long by both criteria of
the claim (600000 ms exceeds the 2.67-minute = 160200 ms split
threshold, and 30 MiB exceeds the 10 MiB size fallback), and the
partitioner at the deployed chunk duration would produce 4 segments,
yet the run posts exactly one request carrying the whole file — not
one request per segment. -/
theorem handleTranscribe_no_split_counterexample :
    (2.67 * 60 * 1000 : ℚ) = 160200 ∧
    (160200 : ℚ) < longFile.durationMs ∧
    10 * 1024 * 1024 < longFile.sizeBytes ∧
    (splitAudioFile 4800000 8000 160200).length = 4 ∧
    (handleTranscribe oracleOk "key" [pendingLong]).submissions = [longFile] ∧
    ¬ (handleTranscribe oracleOk "key" [pendingLong]).submissions.length =
        (splitAudioFile 4800000 8000 160200).length := by
  have hlen4 : (splitAudioFile 4800000 8000 160200).length = 4 := by
    rw [splitAudioFile_length 4800000 8000 160200 (by norm_num)]
    have hT : totalDuration 4800000 8000 = 600000 := by
      norm_num [totalDuration]
    rw [hT]
    have hc : ⌈(600000 : ℚ) / 160200⌉ = 4 := by
      rw [Int.ceil_eq_iff]
      constructor <;> norm_num
    rw [hc]
    rfl
  have hsubs : (handleTranscribe oracleOk "key" [pendingLong]).submissions = [longFile] := by
    decide
  refine ⟨by norm_num, by norm_num [longFile], by norm_num [longFile], hlen4, hsubs, ?_⟩
  rw [hsubs, hlen4]
  decide

/-- C2 (amended): for every run with a non-empty api key,
`handleTranscribe` submits exactly one request per file whose status is
not `completed`, each carrying the whole file, in list order; it never
probes duration, never consults file size, and never partitions a file
into segments (the probing and splitting helpers in the codebase are
not invoked by it). -/
theorem handleTranscribe_submits_whole_files (result : ℕ → FileModel → Option String)
    (apiKey : String) (files0 : List FileStatus) (hkey : ¬ apiKey = "") :
    (handleTranscribe result apiKey files0).submissions =
      (files0.filter notCompleted).map (fun fs => fs.file) :=
  handleTranscribe_subs result apiKey files0 hkey

/-- C2 amended-claim witness at a concrete run. -/
theorem handleTranscribe_submits_whole_files_witness :
    ¬ ("key" : String) = "" ∧
      (handleTranscribe oracleOk "key" [completedRec, pendingLong]).submissions =
        (([completedRec, pendingLong] : List FileStatus).filter notCompleted).map
          (fun fs => fs.file) :=
  ⟨by decide, handleTranscribe_submits_whole_files oracleOk "key" [completedRec, pendingLong]
    (by decide)⟩

/-- C7: re-running `handleTranscribe` over a list in which some entries
are already `completed` leaves those entries untouched and submits
nothing for them, while every `pending` or `failed` entry is submitted
afresh and its final record is determined solely by the fresh outcome. -/
theorem handleTranscribe_idempotent_resume (result : ℕ → FileModel → Option String)
    (apiKey : String) (files0 : List FileStatus) (i : ℕ)
    (hkey : ¬ apiKey = "") (hi : i < files0.length) :
    ((files0.getD i dFileStatus).status = Status.completed →
      (handleTranscribe result apiKey files0).files.getD i dFileStatus =
        files0.getD i dFileStatus) ∧
    (handleTranscribe result apiKey files0).submissions =
      (files0.filter notCompleted).map (fun fs => fs.file) ∧
    ((files0.getD i dFileStatus).status = Status.pending ∨
        (files0.getD i dFileStatus).status = Status.failed →
      (handleTranscribe result apiKey files0).files.getD i dFileStatus =
        (match result i (files0.getD i dFileStatus).file with
          | some t => { files0.getD i dFileStatus with
              status := Status.completed, transcription := some t }
          | none => { files0.getD i dFileStatus with
              status := Status.failed, transcription := none })) := by
  refine ⟨?_, handleTranscribe_subs result apiKey files0 hkey, ?_⟩
  · intro hc
    rw [handleTranscribe_getD result apiKey files0 i hkey hi]
    rw [processedFile, if_pos hc]
  · intro hpf
    rw [handleTranscribe_getD result apiKey files0 i hkey hi]
    rw [processedFile, if_neg (by rcases hpf with h | h <;> rw [h] <;> decide)]

/-- C7 witness at a concrete run with one completed and one pending
entry. -/
theorem handleTranscribe_idempotent_resume_witness :
    ¬ ("key" : String) = "" ∧ 0 < ([completedRec, pendingLong] : List FileStatus).length ∧
      (((([completedRec, pendingLong] : List FileStatus).getD 0 dFileStatus).status =
            Status.completed →
        (handleTranscribe oracleOk "key" [completedRec, pendingLong]).files.getD 0 dFileStatus =
          ([completedRec, pendingLong] : List FileStatus).getD 0 dFileStatus) ∧
      (handleTranscribe oracleOk "key" [completedRec, pendingLong]).submissions =
        (([completedRec, pendingLong] : List FileStatus).filter notCompleted).map
          (fun fs => fs.file) ∧
      ((([completedRec, pendingLong] : List FileStatus).getD 0 dFileStatus).status =
            Status.pending ∨
          (([completedRec, pendingLong] : List FileStatus).getD 0 dFileStatus).status =
            Status.failed →
        (handleTranscribe oracleOk "key" [completedRec, pendingLong]).files.getD 0 dFileStatus =
          (match oracleOk 0 ((([completedRec, pendingLong] : List FileStatus).getD 0
              dFileStatus).file) with
            | some t => { ([completedRec, pendingLong] : List FileStatus).getD 0 dFileStatus with
                status := Status.completed, transcription := some t }
            | none => { ([completedRec, pendingLong] : List FileStatus).getD 0 dFileStatus with
                status := Status.failed, transcription := none }))) :=
  ⟨by decide, by decide,
    handleTranscribe_idempotent_resume oracleOk "key" [completedRec, pendingLong] 0
      (by decide) (by decide)⟩

/-- Oracle that fails the request of iteration 0 and succeeds
elsewhere. -/
def oracleFail0 : ℕ → FileModel → Option String :=
  fun j _ => if j = 0 then none else some "ok"

/-- Oracle agreeing with `oracleFail0` except at iteration 0, where it
succeeds. -/
def oracleFix0 : ℕ → FileModel → Option String :=
  fun j _ => if j = 0 then some "fixed" else some "ok"

/-- C8: a failure while transcribing one file marks only that file
`failed` and does not abort the run: the submission list does not
depend on any outcome (every subsequent file is still submitted), and
changing the outcome at the failing index never changes any other
file's final record. -/
theorem handleTranscribe_failure_isolation
    (result result' : ℕ → FileModel → Option String) (apiKey : String)
    (files0 : List FileStatus) (i : ℕ)
    (hkey : ¬ apiKey = "") (hi : i < files0.length)
    (hnc : ¬ (files0.getD i dFileStatus).status = Status.completed)
    (hfail : result i (files0.getD i dFileStatus).file = none)
    (hagree : ∀ j, ¬ j = i → result' j = result j) :
    ((handleTranscribe result apiKey files0).files.getD i dFileStatus).status =
        Status.failed ∧
    (∀ j, ¬ j = i →
      (handleTranscribe result' apiKey files0).files.getD j dFileStatus =
        (handleTranscribe result apiKey files0).files.getD j dFileStatus) ∧
    (handleTranscribe result' apiKey files0).submissions =
      (handleTranscribe result apiKey files0).submissions := by
  refine ⟨?_, ?_, ?_⟩
  · rw [handleTranscribe_getD result apiKey files0 i hkey hi]
    rw [processedFile, if_neg hnc, hfail]
  · intro j hj
    by_cases hjlen : j < files0.length
    · rw [handleTranscribe_getD result' apiKey files0 j hkey hjlen,
        handleTranscribe_getD result apiKey files0 j hkey hjlen]
      rw [processedFile, processedFile, hagree j hj]
    · have h1 : (handleTranscribe result' apiKey files0).files.getD j dFileStatus =
          dFileStatus := by
        rw [handleTranscribe_files result' apiKey files0 hkey]
        rw [List.getD_eq_getElem?_getD, List.getElem?_mapIdx]
        rw [List.getElem?_eq_none (by simpa using Nat.le_of_not_lt hjlen)]
        rfl
      have h2 : (handleTranscribe result apiKey files0).files.getD j dFileStatus =
          dFileStatus := by
        rw [handleTranscribe_files result apiKey files0 hkey]
        rw [List.getD_eq_getElem?_getD, List.getElem?_mapIdx]
        rw [List.getElem?_eq_none (by simpa using Nat.le_of_not_lt hjlen)]
        rfl
      rw [h1, h2]
  · rw [handleTranscribe_subs result' apiKey files0 hkey,
      handleTranscribe_subs result apiKey files0 hkey]

/-- Reachable states of the page's `files` list under its own
operations, for a fixed per-file delivered-transcript oracle
`delivered` (the `/api/transcribe` response body for a given file):
the list starts empty, `handleFileChange` appends pending entries,
`handleTranscribe` runs the loop, and the three `updateFileStatus`
call shapes of the source may be applied individually. -/
inductive Reachable (delivered : FileModel → Option String) : List FileStatus → Prop
  | nil : Reachable delivered []
  | fileChange {st : List FileStatus} (selectedFiles : List FileModel) :
      Reachable delivered st → Reachable delivered (handleFileChange st selectedFiles)
  | transcribe {st : List FileStatus} (apiKey : String) :
      Reachable delivered st →
      Reachable delivered (handleTranscribe (fun _ file => delivered file) apiKey st).files
  | updateTranscribing {st : List FileStatus} (i : ℕ) :
      Reachable delivered st →
      Reachable delivered (updateFileStatus st i Status.transcribing none)
  | updateCompleted {st : List FileStatus} (i : ℕ) (t : String) :
      Reachable delivered st →
      delivered ((st.getD i dFileStatus).file) = some t →
      Reachable delivered (updateFileStatus st i Status.completed (some t))
  | updateFailed {st : List FileStatus} (i : ℕ) :
      Reachable delivered st →
      Reachable delivered (updateFileStatus st i Status.failed none)

/-- Invariant claimed for every reachable `files` list: an entry's
transcription is set exactly when its status is `completed`, and then
it equals the transcript delivered for that entry's file. -/
def statusInvariant (delivered : FileModel → Option String) (st : List FileStatus) : Prop :=
  ∀ fs ∈ st, ((fs.status = Status.completed) ↔ ¬ fs.transcription = none) ∧
    (fs.status = Status.completed → fs.transcription = delivered fs.file)

lemma statusInvariant_update (delivered : FileModel → Option String)
    (st : List FileStatus) (i : ℕ) (s : Status) (tr : Option String)
    (hst : statusInvariant delivered st)
    (hgood : ∀ f : FileStatus, st[i]? = some f →
      (((s = Status.completed) ↔ ¬ tr = none) ∧
        (s = Status.completed → tr = delivered f.file))) :
    statusInvariant delivered (updateFileStatus st i s tr) := by
  rw [updateFileStatus]
  cases hget : st[i]? with
  | none => exact hst
  | some f =>
    intro fs hfs
    rcases List.mem_or_eq_of_mem_set hfs with hmem | heq
    · exact hst fs hmem
    · subst heq
      exact hgood f hget

/-- C6: in every reachable state of the files list (any sequence of
`handleFileChange`, `updateFileStatus` and `handleTranscribe` steps),
each record's transcription field is set if and only if its status is
`completed`, and when set it equals the transcript delivered for that
file. -/
theorem files_transcription_iff_completed (delivered : FileModel → Option String)
    (st : List FileStatus) (h : Reachable delivered st) :
    statusInvariant delivered st := by
  induction h with
  | nil =>
    intro fs hfs
    cases hfs
  | fileChange selectedFiles hprev ih =>
    intro fs hfs
    rw [handleFileChange] at hfs
    rcases List.mem_append.mp hfs with hmem | hmem
    · exact ih fs hmem
    · rcases List.mem_map.mp hmem with ⟨file, _, heq⟩
      subst heq
      refine ⟨by simp, by simp⟩
  | transcribe apiKey hprev ih =>
    rename_i st'
    by_cases hcond : apiKey = "" ∨ st'.length = 0
    · rw [handleTranscribe, if_pos hcond]
      exact ih
    · have hkey : ¬ apiKey = "" := by tauto
      rw [handleTranscribe_files _ apiKey st' hkey]
      intro fs hfs
      rw [List.mem_mapIdx] at hfs
      obtain ⟨j, hj, heq⟩ := hfs
      subst heq
      by_cases hc : st'[j].status = Status.completed
      · have hmem : st'[j] ∈ st' := List.getElem_mem hj
        have := ih st'[j] hmem
        rw [processedFile, if_pos hc]
        exact this
      · rw [processedFile, if_neg hc]
        cases hdel : delivered st'[j].file with
        | some t => exact ⟨by simp, fun _ => by simp [hdel]⟩
        | none => exact ⟨by simp, by simp⟩
  | updateTranscribing i hprev ih =>
    rename_i st'
    exact statusInvariant_update delivered st' i Status.transcribing none ih
      (fun f _ => ⟨by simp, by simp⟩)
  | updateCompleted i t hprev hdel ih =>
    rename_i st'
    apply statusInvariant_update delivered st' i Status.completed (some t) ih
    intro f hf
    refine ⟨by simp, fun _ => ?_⟩
    rw [List.getD_eq_getElem?_getD, hf] at hdel
    exact hdel.symm
  | updateFailed i hprev ih =>
    rename_i st'
    exact statusInvariant_update delivered st' i Status.failed none ih
      (fun f _ => ⟨by simp, by simp⟩)

/-- Constant delivered-transcript oracle used by the C6 witness. -/
def delivered0 : FileModel → Option String := fun _ => some "hello"

/-- C6 witness: a state reached by adding one file and running the
pipeline once. -/
theorem files_transcription_iff_completed_witness :
    statusInvariant delivered0
      (handleTranscribe (fun _ file => delivered0 file) "key"
        (handleFileChange [] [smallFile])).files :=
  files_transcription_iff_completed delivered0 _
    (Reachable.transcribe "key" (Reachable.fileChange [smallFile] Reachable.nil))

/-- C8 witness: two pending files, the first request fails. -/
theorem handleTranscribe_failure_isolation_witness :
    ¬ ("key" : String) = "" ∧ 0 < ([pendingLong, pendingSmall] : List FileStatus).length ∧
    ¬ (([pendingLong, pendingSmall] : List FileStatus).getD 0 dFileStatus).status =
        Status.completed ∧
    oracleFail0 0 ((([pendingLong, pendingSmall] : List FileStatus).getD 0 dFileStatus).file) =
        none ∧
    (((handleTranscribe oracleFail0 "key" [pendingLong, pendingSmall]).files.getD 0
          dFileStatus).status = Status.failed ∧
      (∀ j, ¬ j = 0 →
        (handleTranscribe oracleFix0 "key" [pendingLong, pendingSmall]).files.getD j
            dFileStatus =
          (handleTranscribe oracleFail0 "key" [pendingLong, pendingSmall]).files.getD j
            dFileStatus) ∧
      (handleTranscribe oracleFix0 "key" [pendingLong, pendingSmall]).submissions =
        (handleTranscribe oracleFail0 "key" [pendingLong, pendingSmall]).submissions) :=
  ⟨by decide, by decide, by decide, by decide,
    handleTranscribe_failure_isolation oracleFail0 oracleFix0 "key"
      [pendingLong, pendingSmall] 0 (by decide) (by decide) (by decide) (by decide)
      (by
        intro j hj
        funext f
        simp [oracleFail0, oracleFix0, hj])⟩

/-! ### Transcription route error mapping (`POST /api/transcribe`)

The catch block of the route (the deployed copy with full error
handling) classifies the caught axios error by its `code`, `message`
and optional HTTP `response`, and produces a JSON error body plus HTTP
status. -/

def charsInclude (pat : List Char) : List Char → Bool
  | [] => pat.isEmpty
  | c :: cs => pat.isPrefixOf (c :: cs) || charsInclude pat cs

/-- JavaScript `s.includes(pat)`. -/
def strIncludes (s pat : String) : Bool := charsInclude pat.data s.data

/-- JavaScript `a || b` over an optionally present string; the empty
string is falsy and also falls through. -/
def jsOrString (a : Option String) (b : String) : String :=
  match a with
  | some s => if s = "" then b else s
  | none => b

structure AxiosResponse where
  status : ℕ
  dataError : Option String
  dataDetail : Option String
  deriving DecidableEq, Repr

structure AxiosError where
  code : Option String
  message : String
  response : Option AxiosResponse
  deriving DecidableEq, Repr

structure ApiErrorResponse where
  error : String
  status : ℕ
  deriving DecidableEq, Repr

/-- Condition of the route's first catch branch:
`error.code === ECONNABORTED || error.message.includes(timeout)`. -/
def isTimeoutError (e : AxiosError) : Bool :=
  decide (e.code = some "ECONNABORTED") || strIncludes e.message "timeout"

/-- Catch handler of the transcription route: map a failure of the
single upstream service call to the JSON error body and HTTP status. -/
def mapTranscribeError (e : AxiosError) : ApiErrorResponse :=
  if isTimeoutError e then
    { error := "Transcription timed out. The file may be too large or the server is busy. Please try with a smaller file or split your audio into chunks."
      status := 408 }
  else if e.response.map AxiosResponse.status = some 401 then
    { error := "Invalid ElevenLabs API key.", status := 401 }
  else if e.response.map AxiosResponse.status = some 413 then
    { error := "File too large for processing. Please use a smaller file or split your audio."
      status := 413 }
  else if e.response.map AxiosResponse.status = some 400 then
    { error := "ElevenLabs API error: " ++
        jsOrString (e.response.bind AxiosResponse.dataError)
          (jsOrString (e.response.bind AxiosResponse.dataDetail) "Bad request")
      status := 400 }
  else
    { error := "Error transcribing audio. Please try again or use a smaller file."
      status := 500 }

/-- C5: the transcription endpoint maps each failure of the single
upstream call to exactly one typed reason: a connection/timeout error
yields 408, upstream HTTP 401 yields the invalid-credential response
(status 401), upstream 413 yields 413, upstream 400 yields the
bad-input response carrying the service-provided message (status 400),
and every other non-2xx or transport failure yields the generic 500
response; no other outcome is possible. -/
theorem transcribe_route_error_mapping (e : AxiosError) :
    ((mapTranscribeError e).status = 408 ∨ (mapTranscribeError e).status = 401 ∨
      (mapTranscribeError e).status = 413 ∨ (mapTranscribeError e).status = 400 ∨
      (mapTranscribeError e).status = 500) ∧
    (isTimeoutError e = true → (mapTranscribeError e).status = 408) ∧
    (isTimeoutError e = false → e.response.map AxiosResponse.status = some 401 →
      mapTranscribeError e = { error := "Invalid ElevenLabs API key.", status := 401 }) ∧
    (isTimeoutError e = false → e.response.map AxiosResponse.status = some 413 →
      (mapTranscribeError e).status = 413) ∧
    (isTimeoutError e = false → e.response.map AxiosResponse.status = some 400 →
      mapTranscribeError e =
        { error := "ElevenLabs API error: " ++
            jsOrString (e.response.bind AxiosResponse.dataError)
              (jsOrString (e.response.bind AxiosResponse.dataDetail) "Bad request")
          status := 400 }) ∧
    (isTimeoutError e = false →
      (∀ s, e.response.map AxiosResponse.status = some s →
        ¬ s = 401 ∧ ¬ s = 413 ∧ ¬ s = 400) →
      (mapTranscribeError e).status = 500) := by
  rw [mapTranscribeError]
  by_cases h1 : isTimeoutError e = true
  · rw [if_pos h1]
    exact ⟨Or.inl rfl, fun _ => rfl, by simp [h1], by simp [h1], by simp [h1], by simp [h1]⟩
  · rw [if_neg h1]
    by_cases h2 : e.response.map AxiosResponse.status = some 401
    · rw [if_pos h2]
      refine ⟨by simp, by simp [h1], fun _ _ => rfl, by simp [h2], by simp [h2], ?_⟩
      intro _ hall
      exact absurd rfl (hall 401 h2).1
    · rw [if_neg h2]
      by_cases h3 : e.response.map AxiosResponse.status = some 413
      · rw [if_pos h3]
        refine ⟨by simp, by simp [h1], by simp [h3], fun _ _ => rfl, by simp [h3], ?_⟩
        intro _ hall
        exact absurd rfl (hall 413 h3).2.1
      · rw [if_neg h3]
        by_cases h4 : e.response.map AxiosResponse.status = some 400
        · rw [if_pos h4]
          refine ⟨by simp, by simp [h1], by simp [h4], by simp [h4], fun _ _ => rfl, ?_⟩
          intro _ hall
          exact absurd rfl (hall 400 h4).2.2
        · rw [if_neg h4]
          exact ⟨by simp, by simp [h1], by simp [h2], by simp [h3], by simp [h4],
            fun _ _ => rfl⟩

/-- Concrete upstream HTTP 401 failure as axios represents it. -/
def err401 : AxiosError :=
  { code := some "ERR_BAD_REQUEST"
    message := "Request failed with status code 401"
    response := some { status := 401, dataError := none, dataDetail := some "invalid key" } }

/-- C5 witness at the concrete 401 failure. -/
theorem transcribe_route_error_mapping_witness :
    isTimeoutError err401 = false ∧
      err401.response.map AxiosResponse.status = some 401 ∧
      mapTranscribeError err401 = { error := "Invalid ElevenLabs API key.", status := 401 } :=
  ⟨by decide, by decide,
    (transcribe_route_error_mapping err401).2.2.1 (by decide) (by decide)⟩

/-! ### Transcript reassembly (`mergeTranscriptions`)

The source sorts the result array with the stable JavaScript sort and
comparator `(a, b) => a.index - b.index` — a stable sort by
nondecreasing `index` — then joins the texts with a blank line. -/

structure TranscriptionResult where
  text : String
  startTime : ℚ
  endTime : ℚ
  index : ℤ
  deriving DecidableEq, Repr

/-- Comparator of the stable sort used by `mergeTranscriptions`. -/
def trLE (a b : TranscriptionResult) : Bool := decide (a.index ≤ b.index)

/-- Embedding of `mergeTranscriptions`: stable-sort by `index` and
join the texts with a blank-line separator. -/
def mergeTranscriptions (results : List TranscriptionResult) : String :=
  String.intercalate "\n\n" ((results.mergeSort trLE).map (fun r => r.text))

lemma trLE_trans (a b c : TranscriptionResult) :
    trLE a b = true → trLE b c = true → trLE a c = true := by
  simp only [trLE, decide_eq_true_eq]
  omega

lemma trLE_total (a b : TranscriptionResult) : (trLE a b || trLE b a) = true := by
  simp only [trLE, Bool.or_eq_true, decide_eq_true_eq]
  omega

/-- Two sorted permutations of each other with pairwise distinct keys
are equal. -/
lemma sorted_perm_nodup_eq (l₁ : List TranscriptionResult) :
    ∀ l₂ : List TranscriptionResult, l₁.Perm l₂ →
      l₁.Pairwise (fun a b => a.index ≤ b.index) →
      l₂.Pairwise (fun a b => a.index ≤ b.index) →
      (l₁.map (fun r => r.index)).Nodup → l₁ = l₂ := by
  induction l₁ with
  | nil =>
    intro l₂ hp _ _ _
    exact hp.nil_eq
  | cons a t ih =>
    intro l₂ hp hs1 hs2 hnd
    cases l₂ with
    | nil => exact absurd hp.eq_nil (List.cons_ne_nil a t)
    | cons b t₂ =>
      have hab : a = b := by
        have hamem : a ∈ b :: t₂ := hp.mem_iff.mp (List.mem_cons_self a t)
        have hbmem : b ∈ a :: t := hp.symm.mem_iff.mp (List.mem_cons_self b t₂)
        rcases List.mem_cons.mp hamem with h | h
        · exact h
        · rcases List.mem_cons.mp hbmem with h' | h'
          · exact h'.symm
          · exfalso
            have h1 : b.index ≤ a.index := (List.pairwise_cons.mp hs2).1 a h
            have h2 : a.index ≤ b.index := (List.pairwise_cons.mp hs1).1 b h'
            have heq : b.index = a.index := le_antisymm h1 h2
            rw [List.map_cons, List.nodup_cons] at hnd
            exact hnd.1 (List.mem_map.mpr ⟨b, h', heq⟩)
      subst hab
      have hp' : t.Perm t₂ := hp.cons_inv
      rw [List.map_cons, List.nodup_cons] at hnd
      rw [ih t₂ hp' (List.pairwise_cons.mp hs1).2 (List.pairwise_cons.mp hs2).2 hnd.2]

/-- Stability of the sort inside `mergeTranscriptions`: for every key,
the fragments carrying that key appear in the sorted list in their
original relative order. -/
lemma mergeSort_filter_key (results : List TranscriptionResult) (k : ℤ) :
    (results.mergeSort trLE).filter (fun r => decide (r.index = k)) =
      results.filter (fun r => decide (r.index = k)) := by
  have hpw : (results.filter (fun r => decide (r.index = k))).Pairwise
      (fun a b => trLE a b = true) := by
    apply List.pairwise_of_forall_mem_list
    intro a ha b hb
    have ha' := (List.mem_filter.mp ha).2
    have hb' := (List.mem_filter.mp hb).2
    simp only [decide_eq_true_eq] at ha' hb'
    simp only [trLE, decide_eq_true_eq]
    omega
  have h1 : List.Sublist (results.filter (fun r => decide (r.index = k)))
      (results.mergeSort trLE) :=
    List.sublist_mergeSort trLE_trans trLE_total hpw (List.filter_sublist results)
  have hself : (results.filter (fun r => decide (r.index = k))).filter
      (fun r => decide (r.index = k)) = results.filter (fun r => decide (r.index = k)) := by
    apply List.filter_eq_self.mpr
    intro a ha
    exact (List.mem_filter.mp ha).2
  have h2 : List.Sublist (results.filter (fun r => decide (r.index = k)))
      ((results.mergeSort trLE).filter (fun r => decide (r.index = k))) := by
    have := h1.filter (fun r => decide (r.index = k))
    rwa [hself] at this
  have hlen : ((results.mergeSort trLE).filter (fun r => decide (r.index = k))).length =
      (results.filter (fun r => decide (r.index = k))).length :=
    ((List.mergeSort_perm results trLE).filter (fun r => decide (r.index = k))).length_eq
  exact (h2.eq_of_length hlen.symm).symm

/-- C9: `mergeTranscriptions` joins the fragments' texts with the
blank-line separator in ascending `index` order (the sorted list is a
sorted permutation of the input); for inputs with pairwise distinct
`index` values the output is invariant under every permutation of the
input (arrival order does not matter); and fragments with equal
`index` keep their original relative order (stable sort). -/
theorem mergeTranscriptions_order_spec (results : List TranscriptionResult) :
    ((results.mergeSort trLE).Pairwise (fun a b => a.index ≤ b.index) ∧
      (results.mergeSort trLE).Perm results ∧
      mergeTranscriptions results =
        String.intercalate "\n\n" ((results.mergeSort trLE).map (fun r => r.text))) ∧
    (∀ results2 : List TranscriptionResult, results.Perm results2 →
      (results.map (fun r => r.index)).Nodup →
      mergeTranscriptions results2 = mergeTranscriptions results) ∧
    (∀ k : ℤ, (results.mergeSort trLE).filter (fun r => decide (r.index = k)) =
      results.filter (fun r => decide (r.index = k))) := by
  have hsorted : ∀ rs : List TranscriptionResult,
      (rs.mergeSort trLE).Pairwise (fun a b => a.index ≤ b.index) := by
    intro rs
    have := List.sorted_mergeSort trLE_trans trLE_total rs
    exact this.imp (fun hab => by simpa [trLE, decide_eq_true_eq] using hab)
  refine ⟨⟨hsorted results, List.mergeSort_perm results trLE, rfl⟩, ?_, mergeSort_filter_key results⟩
  intro results2 hperm hnd
  have hperm2 : (results2.mergeSort trLE).Perm (results.mergeSort trLE) :=
    ((List.mergeSort_perm results2 trLE).trans hperm.symm).trans
      (List.mergeSort_perm results trLE).symm
  have hnd2 : ((results2.mergeSort trLE).map (fun r => r.index)).Nodup := by
    have hp : ((results2.mergeSort trLE).map (fun r => r.index)).Perm
        (results.map (fun r => r.index)) :=
      ((List.mergeSort_perm results2 trLE).trans hperm.symm).map (fun r => r.index)
    exact hp.nodup_iff.mpr hnd
  have heq : results2.mergeSort trLE = results.mergeSort trLE :=
    sorted_perm_nodup_eq (results2.mergeSort trLE) (results.mergeSort trLE) hperm2
      (hsorted results2) (hsorted results) hnd2
  rw [mergeTranscriptions, mergeTranscriptions, heq]

/-- First concrete fragment. -/
def frag0 : TranscriptionResult := { text := "alpha", startTime := 0, endTime := 1, index := 0 }

/-- Second concrete fragment. -/
def frag1 : TranscriptionResult := { text := "beta", startTime := 1, endTime := 2, index := 1 }

/-- C9 witness: merging is permutation-invariant on a concrete
out-of-order arrival. -/
theorem mergeTranscriptions_order_spec_witness :
    ([frag1, frag0] : List TranscriptionResult).Perm [frag0, frag1] ∧
      (([frag1, frag0] : List TranscriptionResult).map (fun r => r.index)).Nodup ∧
      mergeTranscriptions [frag0, frag1] = mergeTranscriptions [frag1, frag0] :=
  ⟨by decide, by decide,
    (mergeTranscriptions_order_spec [frag1, frag0]).2.1 [frag0, frag1] (by decide) (by decide)⟩

/-! ### WAV container encoder (`audioBufferToBlob`)

The encoder writes a 44-byte header at offsets 0..43 in order, then the
sample data sequentially, two bytes per sample, frames outer and
channels inner.  Since every write lands at the next offset, the buffer
is modelled as the concatenation of the written byte runs.  Two
verbatim copies exist in the source: one in `audioUtils.ts` (labels the
blob with the caller's `mimeType`) and one in `page.tsx` (always labels
it `audio/wav`). -/

/-- Byte run written by `writeString`: `charCodeAt` of each char. -/
def asciiCodes (s : String) : List ℕ := s.data.map Char.toNat

/-- Little-endian byte run stored by `DataView.setUint16` (the value is
wrapped mod 2^16). -/
def u16le (v : ℕ) : List ℕ := [v % 256, v / 256 % 256]

/-- Little-endian byte run stored by `DataView.setUint32` (the value is
wrapped mod 2^32). -/
def u32le (v : ℕ) : List ℕ :=
  [v % 256, v / 256 % 256, v / 65536 % 256, v / 16777216 % 256]

/-- Little-endian byte run stored by `DataView.setInt16`: the integer
is wrapped into 16 bits (two's complement). -/
def i16le (z : ℤ) : List ℕ := u16le (z % 65536).toNat

/-- JavaScript `Math.max(-1, Math.min(1, x))`. -/
def clampSample (x : ℚ) : ℚ := max (-1) (min 1 x)

/-- Truncation toward zero applied by `setInt16` to a non-integral
float. -/
def truncToZero (q : ℚ) : ℤ := if 0 ≤ q then ⌊q⌋ else ⌈q⌉

/-- The 16-bit integer stored for one sample:
`sample < 0 ? sample * 0x8000 : sample * 0x7FFF` after clamping. -/
def sampleToInt16 (x : ℚ) : ℤ :=
  truncToZero (if clampSample x < 0 then clampSample x * 32768 else clampSample x * 32767)

namespace AudioUtils

/-- The 44 header bytes written by `audioBufferToBlob` in
`src/utils/audioUtils.ts`, in write order: RIFF chunk, RIFF size
`36 + length * numberOfChannels * 2`, WAVE and fmt chunks, fmt size 16,
format tag 1 (PCM), channel count, sample rate, byte rate, block
alignment, bits per sample 16, data chunk, data size. -/
def wavHeader (numberOfChannels length sampleRate : ℕ) : List ℕ :=
  asciiCodes "RIFF" ++ u32le (36 + length * numberOfChannels * 2) ++
  asciiCodes "WAVE" ++ asciiCodes "fmt " ++ u32le 16 ++ u16le 1 ++
  u16le numberOfChannels ++ u32le sampleRate ++
  u32le (sampleRate * numberOfChannels * 2) ++ u16le (numberOfChannels * 2) ++
  u16le 16 ++ asciiCodes "data" ++ u32le (length * numberOfChannels * 2)

/-- The data section: for `i` over frames (outer) and `channel` over
channels (inner), the clamped, scaled sample as a little-endian 16-bit
integer. -/
def wavData (numberOfChannels length : ℕ) (channelData : ℕ → ℕ → ℚ) : List ℕ :=
  (List.range length).flatMap (fun i =>
    (List.range numberOfChannels).flatMap (fun channel =>
      i16le (sampleToInt16 (channelData channel i))))

/-- Container bytes produced by `audioBufferToBlob`. -/
def wavBytes (numberOfChannels length sampleRate : ℕ) (channelData : ℕ → ℕ → ℚ) :
    List ℕ :=
  wavHeader numberOfChannels length sampleRate ++
    wavData numberOfChannels length channelData

/-- `audioBufferToBlob` of `audioUtils.ts`: bytes plus the blob's
declared MIME type — the caller's `mimeType` (the original file's
type). -/
def audioBufferToBlob (numberOfChannels length sampleRate : ℕ)
    (channelData : ℕ → ℕ → ℚ) (mimeType : String) : List ℕ × String :=
  (wavBytes numberOfChannels length sampleRate channelData, mimeType)

end AudioUtils

namespace PageCopy

/-- The 44 header bytes written by the `audioBufferToBlob` copy
embedded in `page.tsx` (verbatim copy of the `audioUtils.ts` code). -/
def wavHeader (numberOfChannels length sampleRate : ℕ) : List ℕ :=
  asciiCodes "RIFF" ++ u32le (36 + length * numberOfChannels * 2) ++
  asciiCodes "WAVE" ++ asciiCodes "fmt " ++ u32le 16 ++ u16le 1 ++
  u16le numberOfChannels ++ u32le sampleRate ++
  u32le (sampleRate * numberOfChannels * 2) ++ u16le (numberOfChannels * 2) ++
  u16le 16 ++ asciiCodes "data" ++ u32le (length * numberOfChannels * 2)

/-- Data section of the `page.tsx` copy. -/
def wavData (numberOfChannels length : ℕ) (channelData : ℕ → ℕ → ℚ) : List ℕ :=
  (List.range length).flatMap (fun i =>
    (List.range numberOfChannels).flatMap (fun channel =>
      i16le (sampleToInt16 (channelData channel i))))

/-- Container bytes of the `page.tsx` copy. -/
def wavBytes (numberOfChannels length sampleRate : ℕ) (channelData : ℕ → ℕ → ℚ) :
    List ℕ :=
  wavHeader numberOfChannels length sampleRate ++
    wavData numberOfChannels length channelData

/-- `audioBufferToBlob` of `page.tsx`: same bytes, but the blob is
always labelled `audio/wav` regardless of the `mimeType` argument. -/
def audioBufferToBlob (numberOfChannels length sampleRate : ℕ)
    (channelData : ℕ → ℕ → ℚ) (mimeType : String) : List ℕ × String :=
  (wavBytes numberOfChannels length sampleRate channelData, "audio/wav")

end PageCopy

/-- Independent little-endian 16-bit reader. -/
def readU16 (bytes : List ℕ) (off : ℕ) : ℕ :=
  bytes.getD off 0 + 256 * bytes.getD (off + 1) 0

/-- Independent little-endian 32-bit reader. -/
def readU32 (bytes : List ℕ) (off : ℕ) : ℕ :=
  bytes.getD off 0 + 256 * bytes.getD (off + 1) 0 + 65536 * bytes.getD (off + 2) 0 +
    16777216 * bytes.getD (off + 3) 0

/-- Independent signed little-endian 16-bit reader (two's
complement). -/
def readI16 (bytes : List ℕ) (off : ℕ) : ℤ :=
  if readU16 bytes off < 32768 then (readU16 bytes off : ℤ)
  else (readU16 bytes off : ℤ) - 65536

lemma wavHeader_eq (c n sr : ℕ) : AudioUtils.wavHeader c n sr =
    [82, 73, 70, 70,
     (36 + n * c * 2) % 256, (36 + n * c * 2) / 256 % 256,
     (36 + n * c * 2) / 65536 % 256, (36 + n * c * 2) / 16777216 % 256,
     87, 65, 86, 69,
     102, 109, 116, 32,
     16, 0, 0, 0,
     1, 0,
     c % 256, c / 256 % 256,
     sr % 256, sr / 256 % 256, sr / 65536 % 256, sr / 16777216 % 256,
     (sr * c * 2) % 256, (sr * c * 2) / 256 % 256,
     (sr * c * 2) / 65536 % 256, (sr * c * 2) / 16777216 % 256,
     (c * 2) % 256, (c * 2) / 256 % 256,
     16, 0,
     100, 97, 116, 97,
     (n * c * 2) % 256, (n * c * 2) / 256 % 256,
     (n * c * 2) / 65536 % 256, (n * c * 2) / 16777216 % 256] := rfl

lemma wavHeader_length (c n sr : ℕ) : (AudioUtils.wavHeader c n sr).length = 44 := by
  rw [wavHeader_eq]
  rfl

lemma getD_append_lt {α : Type} (l₁ l₂ : List α) (k : ℕ) (d : α) (h : k < l₁.length) :
    (l₁ ++ l₂).getD k d = l₁.getD k d := by
  rw [List.getD_eq_getElem?_getD, List.getD_eq_getElem?_getD, List.getElem?_append_left h]

lemma getD_append_ge {α : Type} (l₁ l₂ : List α) (k : ℕ) (d : α) (h : l₁.length ≤ k) :
    (l₁ ++ l₂).getD k d = l₂.getD (k - l₁.length) d := by
  rw [List.getD_eq_getElem?_getD, List.getD_eq_getElem?_getD, List.getElem?_append_right h]

lemma flatMap_range_length {α : Type} (L : ℕ) (f : ℕ → List α)
    (hf : ∀ j, (f j).length = L) :
    ∀ n, ((List.range n).flatMap f).length = n * L := by
  intro n
  induction n with
  | zero => simp
  | succ n ih =>
    rw [List.range_succ, List.flatMap_append, List.length_append, ih]
    rw [List.flatMap_cons, List.flatMap_nil, List.append_nil, hf n]
    ring

lemma flatMap_range_getD {α : Type} (L : ℕ) (d : α) :
    ∀ (q n : ℕ) (f : ℕ → List α) (r : ℕ),
      (∀ j, (f j).length = L) → q < n → r < L →
      ((List.range n).flatMap f).getD (L * q + r) d = (f q).getD r d := by
  intro q
  induction q with
  | zero =>
    intro n f r hf hq hr
    obtain ⟨m, rfl⟩ : ∃ m, n = m + 1 := ⟨n - 1, by omega⟩
    rw [List.range_succ_eq_map, List.flatMap_cons]
    rw [Nat.mul_zero, Nat.zero_add]
    exact getD_append_lt _ _ r d (by rw [hf 0]; exact hr)
  | succ q ih =>
    intro n f r hf hq hr
    obtain ⟨m, rfl⟩ : ∃ m, n = m + 1 := ⟨n - 1, by omega⟩
    rw [List.range_succ_eq_map, List.flatMap_cons]
    have hidx : L * (q + 1) + r = (f 0).length + (L * q + r) := by
      rw [hf 0]
      ring
    rw [hidx, getD_append_ge _ _ _ d (by omega)]
    have hsub : (f 0).length + (L * q + r) - (f 0).length = L * q + r := by omega
    rw [hsub]
    have hmap : (List.map Nat.succ (List.range m)).flatMap f =
        (List.range m).flatMap (fun j => f (j + 1)) := by
      rw [List.flatMap, List.flatMap, List.map_map]
      rfl
    rw [hmap]
    exact ih m (fun j => f (j + 1)) r (fun j => hf (j + 1)) (by omega) hr

lemma sampleToInt16_bounds (x : ℚ) :
    -32768 ≤ sampleToInt16 x ∧ sampleToInt16 x ≤ 32767 := by
  rw [sampleToInt16]
  have hc1 : -1 ≤ clampSample x := le_max_left _ _
  have hc2 : clampSample x ≤ 1 := by
    rw [clampSample]
    rcases le_total (-1 : ℚ) (min 1 x) with h | h
    · rw [max_eq_right h]
      exact min_le_left _ _
    · rw [max_eq_left h]
      linarith
  by_cases hneg : clampSample x < 0
  · rw [if_pos hneg, truncToZero]
    have hlo : (-32768 : ℚ) ≤ clampSample x * 32768 := by nlinarith
    have hhi : clampSample x * 32768 < 0 := by nlinarith
    rw [if_neg (by linarith)]
    constructor
    · have h1 : (-32768 : ℚ) ≤ (⌈clampSample x * 32768⌉ : ℚ) :=
        le_trans hlo (Int.le_ceil _)
      exact_mod_cast h1
    · have h1 : ⌈clampSample x * 32768⌉ ≤ 0 :=
        Int.ceil_le.mpr (by push_cast; linarith)
      omega
  · rw [if_neg hneg, truncToZero]
    push_neg at hneg
    have hlo : 0 ≤ clampSample x * 32767 := by nlinarith
    have hhi : clampSample x * 32767 ≤ 32767 := by nlinarith
    rw [if_pos hlo]
    constructor
    · have h1 : 0 ≤ ⌊clampSample x * 32767⌋ := Int.floor_nonneg.mpr hlo
      omega
    · have h1 : (⌊clampSample x * 32767⌋ : ℚ) ≤ 32767 :=
        le_trans (Int.floor_le _) hhi
      have h2 : ⌊clampSample x * 32767⌋ ≤ (32767 : ℤ) := by exact_mod_cast h1
      omega

lemma decode_i16 (z : ℤ) (hlo : -32768 ≤ z) (hhi : z ≤ 32767) :
    (if (z % 65536).toNat % 256 + 256 * ((z % 65536).toNat / 256 % 256) < 32768
      then (((z % 65536).toNat % 256 + 256 * ((z % 65536).toNat / 256 % 256) : ℕ) : ℤ)
      else (((z % 65536).toNat % 256 + 256 * ((z % 65536).toNat / 256 % 256) : ℕ) : ℤ) - 65536)
      = z := by
  split <;> omega

lemma wavBytes_data_byte (numberOfChannels length sampleRate : ℕ)
    (channelData : ℕ → ℕ → ℚ) (i r : ℕ)
    (hi : i < length) (hr : r < numberOfChannels * 2) :
    (AudioUtils.wavBytes numberOfChannels length sampleRate channelData).getD
        (44 + ((numberOfChannels * 2) * i + r)) 0 =
      ((List.range numberOfChannels).flatMap (fun channel =>
        i16le (sampleToInt16 (channelData channel i)))).getD r 0 := by
  rw [AudioUtils.wavBytes,
    getD_append_ge _ _ _ 0
      (by rw [wavHeader_length]; exact Nat.le_add_right 44 _)]
  rw [wavHeader_length, Nat.add_sub_cancel_left, AudioUtils.wavData]
  exact flatMap_range_getD (numberOfChannels * 2) 0 i length _ r
    (fun j => flatMap_range_length 2
      (fun channel => i16le (sampleToInt16 (channelData channel j)))
      (fun k => rfl) numberOfChannels) hi hr

lemma wavBytes_sample_byte (numberOfChannels length sampleRate : ℕ)
    (channelData : ℕ → ℕ → ℚ) (i channel δ : ℕ)
    (hi : i < length) (hch : channel < numberOfChannels) (hδ : δ < 2) :
    (AudioUtils.wavBytes numberOfChannels length sampleRate channelData).getD
        (44 + ((numberOfChannels * 2) * i + (2 * channel + δ))) 0 =
      (i16le (sampleToInt16 (channelData channel i))).getD δ 0 := by
  rw [wavBytes_data_byte numberOfChannels length sampleRate channelData i
    (2 * channel + δ) hi (by omega)]
  exact flatMap_range_getD 2 0 channel numberOfChannels _ δ (fun j => rfl) hch hδ

/-- C4: for c channel buffers of n samples each at sample rate sr,
`audioBufferToBlob` produces exactly `44 + c * n * 2` bytes: a 44-byte
WAV header declaring PCM format tag 1 (offset 20), channel count c
(offset 22), sample rate sr (offset 24), byte rate `sr * c * 2`
(offset 28), block alignment `c * 2` (offset 32) and 16 bits per
sample (offset 34), followed by a data section of `c * n * 2` bytes in
which the sample of frame i, channel `channel` sits at byte offset
`44 + (i * c + channel) * 2` — frame-by-frame interleaved,
little-endian — as the clamped sample scaled by 32768 if negative and
by 32767 otherwise. -/
theorem audioBufferToBlob_wav_layout (numberOfChannels length sampleRate : ℕ)
    (channelData : ℕ → ℕ → ℚ)
    (hc : numberOfChannels * 2 < 65536) (hsr : sampleRate < 4294967296)
    (hbr : sampleRate * numberOfChannels * 2 < 4294967296) :
    (AudioUtils.wavBytes numberOfChannels length sampleRate channelData).length =
        44 + numberOfChannels * length * 2 ∧
    readU16 (AudioUtils.wavBytes numberOfChannels length sampleRate channelData) 20 = 1 ∧
    readU16 (AudioUtils.wavBytes numberOfChannels length sampleRate channelData) 22 =
        numberOfChannels ∧
    readU32 (AudioUtils.wavBytes numberOfChannels length sampleRate channelData) 24 =
        sampleRate ∧
    readU32 (AudioUtils.wavBytes numberOfChannels length sampleRate channelData) 28 =
        sampleRate * numberOfChannels * 2 ∧
    readU16 (AudioUtils.wavBytes numberOfChannels length sampleRate channelData) 32 =
        numberOfChannels * 2 ∧
    readU16 (AudioUtils.wavBytes numberOfChannels length sampleRate channelData) 34 = 16 ∧
    (∀ i channel, i < length → channel < numberOfChannels →
      readI16 (AudioUtils.wavBytes numberOfChannels length sampleRate channelData)
          (44 + (i * numberOfChannels + channel) * 2) =
        sampleToInt16 (channelData channel i)) := by
  have hheadlen := wavHeader_length numberOfChannels length sampleRate
  have hH : ∀ off, off < 44 →
      (AudioUtils.wavBytes numberOfChannels length sampleRate channelData).getD off 0 =
        (AudioUtils.wavHeader numberOfChannels length sampleRate).getD off 0 := by
    intro off hoff
    rw [AudioUtils.wavBytes]
    exact getD_append_lt _ _ off 0 (by rw [hheadlen]; exact hoff)
  refine ⟨?_, ?_, ?_, ?_, ?_, ?_, ?_, ?_⟩
  · rw [AudioUtils.wavBytes, List.length_append, hheadlen, AudioUtils.wavData]
    rw [flatMap_range_length (numberOfChannels * 2) _
      (fun i => flatMap_range_length 2
        (fun channel => i16le (sampleToInt16 (channelData channel i)))
        (fun k => rfl) numberOfChannels) length]
    ring
  · rw [readU16, hH 20 (by norm_num), hH 21 (by norm_num), wavHeader_eq]
    rfl
  · rw [readU16, hH 22 (by norm_num), hH 23 (by norm_num), wavHeader_eq]
    show numberOfChannels % 256 + 256 * (numberOfChannels / 256 % 256) = numberOfChannels
    omega
  · rw [readU32, hH 24 (by norm_num), hH 25 (by norm_num), hH 26 (by norm_num),
      hH 27 (by norm_num), wavHeader_eq]
    show sampleRate % 256 + 256 * (sampleRate / 256 % 256) +
        65536 * (sampleRate / 65536 % 256) + 16777216 * (sampleRate / 16777216 % 256) =
      sampleRate
    omega
  · rw [readU32, hH 28 (by norm_num), hH 29 (by norm_num), hH 30 (by norm_num),
      hH 31 (by norm_num), wavHeader_eq]
    show sampleRate * numberOfChannels * 2 % 256 +
        256 * (sampleRate * numberOfChannels * 2 / 256 % 256) +
        65536 * (sampleRate * numberOfChannels * 2 / 65536 % 256) +
        16777216 * (sampleRate * numberOfChannels * 2 / 16777216 % 256) =
      sampleRate * numberOfChannels * 2
    omega
  · rw [readU16, hH 32 (by norm_num), hH 33 (by norm_num), wavHeader_eq]
    show numberOfChannels * 2 % 256 + 256 * (numberOfChannels * 2 / 256 % 256) =
      numberOfChannels * 2
    omega
  · rw [readU16, hH 34 (by norm_num), hH 35 (by norm_num), wavHeader_eq]
    rfl
  · intro i channel hi hch
    have h0 := wavBytes_sample_byte numberOfChannels length sampleRate channelData
      i channel 0 hi hch (by norm_num)
    have h1 := wavBytes_sample_byte numberOfChannels length sampleRate channelData
      i channel 1 hi hch (by norm_num)
    have hidx0 : 44 + ((numberOfChannels * 2) * i + (2 * channel + 0)) =
        44 + (i * numberOfChannels + channel) * 2 := by ring
    have hidx1 : 44 + ((numberOfChannels * 2) * i + (2 * channel + 1)) =
        44 + (i * numberOfChannels + channel) * 2 + 1 := by ring
    rw [hidx0] at h0
    rw [hidx1] at h1
    rw [readI16, readU16, h0, h1]
    exact decode_i16 _ (sampleToInt16_bounds _).1 (sampleToInt16_bounds _).2

/-- C4 witness: one channel, one sample, 8000 Hz. -/
theorem audioBufferToBlob_wav_layout_witness :
    1 * 2 < 65536 ∧ 8000 < 4294967296 ∧ 8000 * 1 * 2 < 4294967296 ∧
    ((AudioUtils.wavBytes 1 1 8000 (fun _ _ => 1 / 2)).length = 44 + 1 * 1 * 2 ∧
      readU16 (AudioUtils.wavBytes 1 1 8000 (fun _ _ => 1 / 2)) 20 = 1 ∧
      readU16 (AudioUtils.wavBytes 1 1 8000 (fun _ _ => 1 / 2)) 22 = 1 ∧
      readU32 (AudioUtils.wavBytes 1 1 8000 (fun _ _ => 1 / 2)) 24 = 8000 ∧
      readU32 (AudioUtils.wavBytes 1 1 8000 (fun _ _ => 1 / 2)) 28 = 8000 * 1 * 2 ∧
      readU16 (AudioUtils.wavBytes 1 1 8000 (fun _ _ => 1 / 2)) 32 = 1 * 2 ∧
      readU16 (AudioUtils.wavBytes 1 1 8000 (fun _ _ => 1 / 2)) 34 = 16 ∧
      (∀ i channel, i < 1 → channel < 1 →
        readI16 (AudioUtils.wavBytes 1 1 8000 (fun _ _ => 1 / 2))
            (44 + (i * 1 + channel) * 2) =
          sampleToInt16 ((fun _ _ => (1 / 2 : ℚ)) channel i))) :=
  ⟨by norm_num, by norm_num, by norm_num,
    audioBufferToBlob_wav_layout 1 1 8000 (fun _ _ => 1 / 2)
      (by norm_num) (by norm_num) (by norm_num)⟩

/-- C10: the two source copies of the container encoder — the one in
`audioUtils.ts` and the one embedded in `page.tsx` — produce
byte-identical container contents for every input buffer, and differ
only in the blob's declared MIME type: the `audioUtils.ts` copy labels
the blob with the caller's original MIME type while the `page.tsx`
copy always labels it `audio/wav`. -/
theorem audioBufferToBlob_copies_agree (numberOfChannels length sampleRate : ℕ)
    (channelData : ℕ → ℕ → ℚ) (mimeType : String) :
    (AudioUtils.audioBufferToBlob numberOfChannels length sampleRate channelData
        mimeType).1 =
      (PageCopy.audioBufferToBlob numberOfChannels length sampleRate channelData
        mimeType).1 ∧
    (AudioUtils.audioBufferToBlob numberOfChannels length sampleRate channelData
        mimeType).2 = mimeType ∧
    (PageCopy.audioBufferToBlob numberOfChannels length sampleRate channelData
        mimeType).2 = "audio/wav" :=
  ⟨rfl, rfl, rfl⟩

end F9
